import Mathlib

/-!
Verification of the Europa massive-downloader ingestion pipeline
(`europa_massive_downloader.py`): work partitioning, chunk fetch with
normalization, deduplication against an in-memory URL set, and idempotent
batch persistence keyed on `source_url`.

The embedding follows the source file:
* `Dataset` is the canonical record dictionary produced by
  `extract_europa_metadata_from_string`.
* The store is a list of rows; `insertOnConflictDoNothing` is the
  per-row semantics of `INSERT ... ON CONFLICT (source_url) DO NOTHING`,
  and `executeBatchInsert` is `cursor.executemany` over the batch.
* Fallible external calls (database connection, HTTP request) are modelled
  by explicit outcome parameters: a `Bool` error flag for the database and
  an `HttpResult` value for the request.
-/

structure Dataset where
  title : String
  description : String
  keywords : List String
  source_url : String
  organization : String
  publication_date : String
  last_modified_date : String
  format : List String
  license : String
  source_platform : String
  raw_id : String
  author : String
  maintainer : String
  download_url : List String
  groups : List String
  code : String
  data_availability : String
  metadata_availability : String
  concepts : String
deriving DecidableEq, Repr

/-- Keys currently present in the store (the `source_url` column). -/
def storeKeys (store : List Dataset) : List String :=
  store.map (fun r => r.source_url)

/-- One row of `INSERT ... ON CONFLICT (source_url) DO NOTHING`: if a row
with the same `source_url` already exists the insert is silently skipped,
otherwise the row is appended. -/
def insertOnConflictDoNothing (store : List Dataset) (d : Dataset) : List Dataset :=
  if d.source_url ∈ storeKeys store then store else store ++ [d]

/-- `cursor.executemany(insert_query, batch_data)`: the rows of the batch are
inserted in order, each with conflict-skipping semantics. -/
def executeBatchInsert (store : List Dataset) (batch : List Dataset) : List Dataset :=
  batch.foldl insertOnConflictDoNothing store

/-- `EuropaMassiveDownloader.save_datasets_batch`.  The `dbError` flag models
an exception raised inside the `try` block (connection failure or SQL error);
the surrounding `with` context manager rolls the transaction back, so the
store is unchanged and the handler returns `0`.  On success the function
returns `len(batch_data)`, the length of the submitted batch. -/
def save_datasets_batch (dbError : Bool) (store : List Dataset) (datasets : List Dataset) :
    List Dataset × Nat :=
  if datasets.isEmpty then (store, 0)
  else if dbError then (store, 0)
  else (executeBatchInsert store datasets, datasets.length)

/-- Python `str.strip()`: drop leading and trailing whitespace. -/
def pyStrip (s : String) : String :=
  String.mk (((s.data.dropWhile Char.isWhitespace).reverse.dropWhile Char.isWhitespace).reverse)

/-- `EuropaMassiveDownloader.extract_europa_metadata_from_string`: strips the
raw identifier string, rejects it (returns the empty dict, here `none`) when
it is empty or shorter than 3 characters, and otherwise builds the canonical
record from the fixed URL template. -/
def extract_europa_metadata_from_string (dataset_str : String) : Option Dataset :=
  let dataset_id := pyStrip dataset_str
  if dataset_id = "" ∨ dataset_id.length < 3 then none
  else
    let source_url := "https://data.europa.eu/data/datasets/" ++ dataset_id
    some
      { title := "European Dataset " ++ dataset_id
      , description := "Dataset from the European Data Portal with ID: " ++ dataset_id
      , keywords := ["european data", "open data", "government data"]
      , source_url := source_url
      , organization := "European Data Portal"
      , publication_date := ""
      , last_modified_date := ""
      , format := ["Unknown"]
      , license := "Various European Licenses"
      , source_platform := "data.europa.eu"
      , raw_id := dataset_id
      , author := "European Data Portal"
      , maintainer := "European Data Portal"
      , download_url := [source_url]
      , groups := ["european-data", "open-data"]
      , code := dataset_id
      , data_availability := "metadata_only"
      , metadata_availability := "available"
      , concepts := "\x7b\"type\": \"european_dataset\", \"id\": \"" ++ dataset_id ++ "\"\x7d" }

/-- The record `extract_europa_metadata_from_string` produces for the raw
identifier `"abc"`; used as a concrete test vector. -/
def sampleDataset : Dataset :=
  { title := "European Dataset abc"
  , description := "Dataset from the European Data Portal with ID: abc"
  , keywords := ["european data", "open data", "government data"]
  , source_url := "https://data.europa.eu/data/datasets/abc"
  , organization := "European Data Portal"
  , publication_date := ""
  , last_modified_date := ""
  , format := ["Unknown"]
  , license := "Various European Licenses"
  , source_platform := "data.europa.eu"
  , raw_id := "abc"
  , author := "European Data Portal"
  , maintainer := "European Data Portal"
  , download_url := ["https://data.europa.eu/data/datasets/abc"]
  , groups := ["european-data", "open-data"]
  , code := "abc"
  , data_availability := "metadata_only"
  , metadata_availability := "available"
  , concepts := "\x7b\"type\": \"european_dataset\", \"id\": \"abc\"\x7d" }

example : extract_europa_metadata_from_string "abc" = some sampleDataset := by decide
example : extract_europa_metadata_from_string "ab" = none := by decide
example : extract_europa_metadata_from_string "  " = none := by decide
example : save_datasets_batch false [sampleDataset] [sampleDataset] = ([sampleDataset], 1) := by
  decide

/-- Body of the HTTP response, after `response.json()`: either a JSON list of
identifier strings or some other JSON shape. -/
inductive ApiBody where
  | jsonList (items : List String) : ApiBody
  | jsonOther : ApiBody
deriving DecidableEq, Repr

/-- Outcome of `session.get(...)`: either the request raised (timeout,
connection error, malformed JSON — anything caught by the `except` block) or
a response arrived with a status code and a parsed body. -/
inductive HttpResult where
  | exn : HttpResult
  | resp (status : Nat) (body : ApiBody) : HttpResult
deriving DecidableEq, Repr

/-- Body of the per-entry loop of `download_europa_chunk`: the raw string
goes through the normalizer; the record is appended only when the metadata
is non-empty, has a non-empty `source_url`, and that URL is not in the
`existing_urls` set the chunk was dispatched with. -/
def chunkStep (existing_urls : List String) (datasets : List Dataset)
    (dataset_str : String) : List Dataset :=
  match extract_europa_metadata_from_string dataset_str with
  | none => datasets
  | some metadata =>
      if metadata.source_url ≠ "" then
        if metadata.source_url ∈ existing_urls then datasets
        else datasets ++ [metadata]
      else datasets

/-- The per-entry processing loop of `download_europa_chunk` over the raw
entries of one page. -/
def processChunkData (existing_urls : List String) (data : List String) : List Dataset :=
  data.foldl (chunkStep existing_urls) []

/-- Rephrasing of `chunkStep` as a per-entry decision, for the
characterization of the loop as a `filterMap`. -/
def keepEntry (urls : List String) (s : String) : Option Dataset :=
  match extract_europa_metadata_from_string s with
  | none => none
  | some metadata =>
      if metadata.source_url ≠ "" then
        if metadata.source_url ∈ urls then none else some metadata
      else none

/-- `download_europa_chunk`: a raised request, a non-200 status, a non-list
body, or an empty list each yield `[]`; otherwise every entry is normalized
and filtered against `existing_urls`. -/
def download_europa_chunk (existing_urls : List String) (result : HttpResult) :
    List Dataset :=
  match result with
  | .exn => []
  | .resp status body =>
      if status ≠ 200 then []
      else
        match body with
        | .jsonOther => []
        | .jsonList data =>
            if data.isEmpty then []
            else processChunkData existing_urls data

/-- The chunk-creation loop in `main`: `num_chunks = batch_size // chunk_size`
chunks, the i-th starting at `start_offset + i * chunk_size`, each of size
`chunk_size`.  (Every chunk tuple also carries the same `existing_urls`
snapshot; the offsets are what matters for partitioning.) -/
def makeChunks (start_offset batch_size chunk_size : Nat) : List (Nat × Nat) :=
  (List.range (batch_size / chunk_size)).map
    (fun i => (start_offset + i * chunk_size, chunk_size))

/-- `x` lies in the half-open range `[c.1, c.1 + c.2)` of chunk `c`. -/
def inChunk (c : Nat × Nat) (x : Nat) : Prop :=
  c.1 ≤ x ∧ x < c.1 + c.2

instance (c : Nat × Nat) (x : Nat) : Decidable (inChunk c x) :=
  inferInstanceAs (Decidable (_ ∧ _))

/-- `x` is covered by some chunk of the list. -/
def coveredBy (cs : List (Nat × Nat)) (x : Nat) : Prop :=
  ∃ c ∈ cs, inChunk c x

instance (cs : List (Nat × Nat)) (x : Nat) : Decidable (coveredBy cs x) :=
  inferInstanceAs (Decidable (∃ c ∈ cs, _ ∧ _))

/-- Two chunks claim no common offset. -/
def chunkDisjoint (c d : Nat × Nat) : Prop :=
  ∀ x : Nat, ¬(inChunk c x ∧ inChunk d x)

/-- Python `set.add`: no effect when the element is already present. -/
def setAdd (s : List String) (u : String) : List String :=
  if u ∈ s then s else s ++ [u]

/-- The `for dataset in datasets: existing_urls.add(dataset['source_url'])`
loop in `main`. -/
def setAddAll (s : List String) (us : List String) : List String :=
  us.foldl setAdd s

/-- Orchestrator state in `main`'s draining loop: the store, the in-memory
`existing_urls` set, and the running `total_saved` counter. -/
structure OrchState where
  store : List Dataset
  existing_urls : List String
  total_saved : Nat
deriving DecidableEq, Repr

/-- One iteration of `main`'s `as_completed` loop for a chunk whose fetch
returned `datasets`: when non-empty, the batch is written
(`save_datasets_batch`, with `dbError` modelling a write failure), the
return value is added to `total_saved`, and only then are the batch's URLs
added to `existing_urls`.  An empty result changes nothing. -/
def processCompletedChunk (st : OrchState) (datasets : List Dataset) (dbError : Bool) :
    OrchState :=
  if datasets.isEmpty then st
  else
    let saved := save_datasets_batch dbError st.store datasets
    { store := saved.1
    , existing_urls := setAddAll st.existing_urls (datasets.map (fun d => d.source_url))
    , total_saved := st.total_saved + saved.2 }

/-- The per-job filtered fetch results: every chunk is dispatched with the
same `initial_urls` snapshot (the chunk tuples are built, and pickled to the
worker processes, before any result is merged), so later additions to the
orchestrator's set never reach a worker. -/
def filteredBatches (initial_urls : List String) (jobs : List (HttpResult × Bool)) :
    List (List Dataset) :=
  jobs.map (fun j => download_europa_chunk initial_urls j.1)

/-- A whole ingestion job: the fetch results of the chunks, listed in
completion order (each paired with its write-failure flag), are merged one
at a time by the orchestrator's single control thread. -/
def runJob (initial_urls : List String) (store : List Dataset)
    (jobs : List (HttpResult × Bool)) : OrchState :=
  (filteredBatches initial_urls jobs).zip (jobs.map (fun j => j.2))
    |>.foldl (fun st b => processCompletedChunk st b.1 b.2)
      { store := store, existing_urls := initial_urls, total_saved := 0 }

/-- The merge of one completed job, as a step function on orchestrator
state (`runJob` is the fold of this step over the jobs in completion
order). -/
def orchStep (initial_urls : List String) (st : OrchState) (j : HttpResult × Bool) :
    OrchState :=
  processCompletedChunk st (download_europa_chunk initial_urls j.1) j.2

/-- `get_existing_europa_urls`: on success, the `source_url` of every row
whose platform is `data.europa.eu`; a query failure is caught and the
handler returns the empty set. -/
def get_existing_europa_urls (loadError : Bool) (store : List Dataset) : List String :=
  if loadError then []
  else (store.filter (fun r => r.source_platform == "data.europa.eu")).map
    (fun r => r.source_url)

/-- The platform row count `main` reads first (its connection is not guarded
by any `try`). -/
def countPlatform (store : List Dataset) : Nat :=
  (store.filter (fun r => r.source_platform == "data.europa.eu")).length

/-- `main`'s initialization: the unguarded count query fails the job fatally
(`none`) when the connection fails; otherwise the job proceeds with the
count and whatever `get_existing_europa_urls` produced — an empty set when
the key-set load failed. -/
def main_init (connError loadError : Bool) (store : List Dataset) :
    Option (Nat × List String) :=
  if connError then none
  else some (countPlatform store, get_existing_europa_urls loadError store)

/-- Rows of the store holding a given key. -/
def countKey (store : List Dataset) (k : String) : Nat :=
  (store.filter (fun r => r.source_url == k)).length

/-- No two rows share a `source_url`. -/
def uniqueKeys (store : List Dataset) : Prop :=
  store.Pairwise (fun a b => a.source_url ≠ b.source_url)

example :
    download_europa_chunk [] (.resp 200 (.jsonList ["abc"])) = [sampleDataset] := by decide
example : download_europa_chunk [] (.resp 404 (.jsonList ["abc"])) = [] := by decide
example :
    download_europa_chunk ["https://data.europa.eu/data/datasets/abc"]
      (.resp 200 (.jsonList ["abc"])) = [] := by decide
example : makeChunks 100 10 5 = [(100, 5), (105, 5)] := by decide
example : makeChunks 0 100 5000 = [] := by decide
example :
    (runJob [] [] [(.resp 200 (.jsonList ["abc"]), false),
      (.resp 200 (.jsonList ["abc"]), false)]).store = [sampleDataset] := by decide
example :
    (runJob [] [] [(.resp 200 (.jsonList ["abc"]), false),
      (.resp 200 (.jsonList ["abc"]), false)]).total_saved = 2 := by decide

/-! ### Characterization of the chunk-processing loop -/

lemma foldl_chunkStep_eq (urls : List String) (data : List String)
    (acc : List Dataset) :
    data.foldl (chunkStep urls) acc = acc ++ data.filterMap (keepEntry urls) := by
  induction data generalizing acc with
  | nil => simp
  | cons s rest ih =>
      rw [List.foldl_cons, ih, List.filterMap_cons]
      cases hx : extract_europa_metadata_from_string s with
      | none => simp [chunkStep, keepEntry, hx]
      | some m =>
          by_cases h1 : m.source_url = ""
          · simp [chunkStep, keepEntry, hx, h1]
          · by_cases h2 : m.source_url ∈ urls
            · simp [chunkStep, keepEntry, hx, h1, h2]
            · simp [chunkStep, keepEntry, hx, h1, h2]

lemma processChunkData_eq_filterMap (urls : List String) (data : List String) :
    processChunkData urls data = data.filterMap (keepEntry urls) := by
  rw [processChunkData, foldl_chunkStep_eq]
  simp

lemma extract_source_url (s : String) (m : Dataset)
    (h : extract_europa_metadata_from_string s = some m) :
    m.source_url = "https://data.europa.eu/data/datasets/" ++ pyStrip s := by
  rw [extract_europa_metadata_from_string] at h
  by_cases hc : pyStrip s = "" ∨ (pyStrip s).length < 3
  · simp [hc] at h
  · simp only [hc, if_false] at h
    cases h
    rfl

lemma extract_source_url_ne_empty (s : String) (m : Dataset)
    (h : extract_europa_metadata_from_string s = some m) :
    m.source_url ≠ "" := by
  rw [extract_source_url s m h]
  intro hcontra
  have hlen := congrArg String.length hcontra
  rw [String.length_append] at hlen
  have h37 : ("https://data.europa.eu/data/datasets/" : String).length = 37 := by decide
  have h0 : ("" : String).length = 0 := by decide
  omega

lemma keepEntry_eq_some (urls : List String) (s : String) (m : Dataset) :
    keepEntry urls s = some m ↔
      extract_europa_metadata_from_string s = some m ∧ m.source_url ∉ urls := by
  constructor
  · intro h
    rw [keepEntry] at h
    cases hx : extract_europa_metadata_from_string s with
    | none => rw [hx] at h; exact absurd h (by simp)
    | some m' =>
        rw [hx] at h
        by_cases h1 : m'.source_url = ""
        · simp [h1] at h
        · by_cases h2 : m'.source_url ∈ urls
          · simp [h1, h2] at h
          · simp only [h1, h2, ne_eq, not_false_eq_true, if_true, if_false] at h
            rw [Option.some_inj] at h
            subst h
            exact ⟨rfl, h2⟩
  · intro ⟨hx, hmem⟩
    rw [keepEntry, hx]
    simp [extract_source_url_ne_empty s m hx, hmem]

lemma mem_processChunkData (urls : List String) (data : List String) (m : Dataset) :
    m ∈ processChunkData urls data ↔
      (∃ s ∈ data, extract_europa_metadata_from_string s = some m) ∧
        m.source_url ∉ urls := by
  rw [processChunkData_eq_filterMap, List.mem_filterMap]
  constructor
  · intro ⟨s, hs, hk⟩
    have := (keepEntry_eq_some urls s m).mp hk
    exact ⟨⟨s, hs, this.1⟩, this.2⟩
  · intro ⟨⟨s, hs, hx⟩, hmem⟩
    exact ⟨s, hs, (keepEntry_eq_some urls s m).mpr ⟨hx, hmem⟩⟩

lemma mem_download (urls : List String) (r : HttpResult) (m : Dataset) :
    m ∈ download_europa_chunk urls r ↔
      ∃ data, r = .resp 200 (.jsonList data) ∧ m ∈ processChunkData urls data := by
  cases r with
  | exn => simp [download_europa_chunk]
  | resp status body =>
      by_cases hs : status = 200
      · subst hs
        cases body with
        | jsonOther => simp [download_europa_chunk]
        | jsonList data =>
            by_cases hd : data.isEmpty
            · have : data = [] := by simpa using hd
              subst this
              simp [download_europa_chunk, processChunkData]
            · simp only [download_europa_chunk, if_neg (by simp : ¬(200 ≠ 200)), hd,
                Bool.false_eq_true, if_false]
              constructor
              · intro hm; exact ⟨data, rfl, hm⟩
              · intro ⟨data', heq, hm⟩
                cases heq
                exact hm
      · simp [download_europa_chunk, hs]

/-! ### Store lemmas: conflict-skipping inserts -/

lemma storeKeys_insertOnConflictDoNothing (store : List Dataset) (d : Dataset)
    (k : String) (h : k ∈ storeKeys store) :
    k ∈ storeKeys (insertOnConflictDoNothing store d) := by
  rw [insertOnConflictDoNothing]
  by_cases hd : d.source_url ∈ storeKeys store
  · rw [if_pos hd]; exact h
  · rw [if_neg hd]
    show k ∈ (store ++ [d]).map (fun r => r.source_url)
    rw [List.map_append]
    exact List.mem_append_left _ h

lemma storeKeys_executeBatchInsert (store : List Dataset) (batch : List Dataset)
    (k : String) (h : k ∈ storeKeys store) :
    k ∈ storeKeys (executeBatchInsert store batch) := by
  induction batch generalizing store with
  | nil => exact h
  | cons d rest ih =>
      exact ih _ (storeKeys_insertOnConflictDoNothing store d k h)

lemma key_mem_insertOnConflictDoNothing (store : List Dataset) (d : Dataset) :
    d.source_url ∈ storeKeys (insertOnConflictDoNothing store d) := by
  rw [insertOnConflictDoNothing]
  by_cases hd : d.source_url ∈ storeKeys store
  · rw [if_pos hd]; exact hd
  · rw [if_neg hd]
    show d.source_url ∈ (store ++ [d]).map (fun r => r.source_url)
    rw [List.map_append]
    exact List.mem_append_right _ (by simp)

lemma key_mem_executeBatchInsert (store : List Dataset) (batch : List Dataset)
    (m : Dataset) (h : m ∈ batch) :
    m.source_url ∈ storeKeys (executeBatchInsert store batch) := by
  induction batch generalizing store with
  | nil => cases h
  | cons d rest ih =>
      rcases List.mem_cons.mp h with rfl | hrest
      · exact storeKeys_executeBatchInsert _ rest _
          (key_mem_insertOnConflictDoNothing store m)
      · exact ih (insertOnConflictDoNothing store d) hrest

lemma uniqueKeys_insertOnConflictDoNothing (store : List Dataset) (d : Dataset)
    (h : uniqueKeys store) :
    uniqueKeys (insertOnConflictDoNothing store d) := by
  rw [insertOnConflictDoNothing]
  by_cases hd : d.source_url ∈ storeKeys store
  · simpa [hd]
  · simp only [hd, if_false]
    rw [uniqueKeys, List.pairwise_append]
    refine ⟨h, List.pairwise_singleton _ _, ?_⟩
    intro a ha b hb
    rw [List.mem_singleton] at hb
    subst hb
    intro heq
    exact hd (heq ▸ List.mem_map.mpr ⟨a, ha, rfl⟩)

lemma uniqueKeys_executeBatchInsert (store : List Dataset) (batch : List Dataset)
    (h : uniqueKeys store) :
    uniqueKeys (executeBatchInsert store batch) := by
  induction batch generalizing store with
  | nil => exact h
  | cons d rest ih =>
      exact ih _ (uniqueKeys_insertOnConflictDoNothing store d h)

lemma insertOnConflictDoNothing_of_mem (store : List Dataset) (d : Dataset)
    (h : d.source_url ∈ storeKeys store) :
    insertOnConflictDoNothing store d = store := by
  simp [insertOnConflictDoNothing, h]

lemma executeBatchInsert_of_all_mem (store : List Dataset) (batch : List Dataset)
    (h : ∀ m ∈ batch, m.source_url ∈ storeKeys store) :
    executeBatchInsert store batch = store := by
  induction batch with
  | nil => rfl
  | cons d rest ih =>
      have hd := h d (List.mem_cons_self d rest)
      show executeBatchInsert (insertOnConflictDoNothing store d) rest = store
      rw [insertOnConflictDoNothing_of_mem store d hd]
      exact ih (fun m hm => h m (List.mem_cons_of_mem d hm))

lemma countKey_le_one (store : List Dataset) (k : String) (h : uniqueKeys store) :
    countKey store k ≤ 1 := by
  induction store with
  | nil => simp [countKey]
  | cons d rest ih =>
      rw [uniqueKeys, List.pairwise_cons] at h
      by_cases hd : d.source_url = k
      · have hnone : List.filter (fun r => r.source_url == k) rest = [] := by
          rw [List.filter_eq_nil_iff]
          intro b hb
          simp only [beq_iff_eq]
          exact fun hbk => h.1 b hb (hd.trans hbk.symm)
        rw [countKey, List.filter_cons]
        simp [hd, hnone]
      · rw [countKey, List.filter_cons]
        have hb : (d.source_url == k) = false := by simp [hd]
        rw [hb]
        simp only [Bool.false_eq_true, if_false]
        exact ih h.2

/-! ### Orchestrator lemmas -/

lemma runJob_eq_foldl (urls : List String) (store : List Dataset)
    (jobs : List (HttpResult × Bool)) :
    runJob urls store jobs =
      jobs.foldl (orchStep urls)
        { store := store, existing_urls := urls, total_saved := 0 } := by
  rw [runJob, filteredBatches, List.zip_map', List.foldl_map]
  rfl

lemma storeKeys_save (e : Bool) (store ds : List Dataset) (k : String)
    (h : k ∈ storeKeys store) :
    k ∈ storeKeys (save_datasets_batch e store ds).1 := by
  rw [save_datasets_batch]
  by_cases hds : ds.isEmpty = true
  · rw [if_pos hds]; exact h
  · rw [if_neg hds]
    cases e with
    | true => simpa using h
    | false =>
        simp only [Bool.false_eq_true, if_false]
        exact storeKeys_executeBatchInsert store ds k h

lemma uniqueKeys_save (e : Bool) (store ds : List Dataset) (h : uniqueKeys store) :
    uniqueKeys (save_datasets_batch e store ds).1 := by
  rw [save_datasets_batch]
  by_cases hds : ds.isEmpty = true
  · rw [if_pos hds]; exact h
  · rw [if_neg hds]
    cases e with
    | true => simpa using h
    | false =>
        simp only [Bool.false_eq_true, if_false]
        exact uniqueKeys_executeBatchInsert store ds h

lemma key_mem_save (store ds : List Dataset) (m : Dataset) (hm : m ∈ ds) :
    m.source_url ∈ storeKeys (save_datasets_batch false store ds).1 := by
  have hne : ¬ds.isEmpty = true := by
    cases ds with
    | nil => cases hm
    | cons a l => simp
  rw [save_datasets_batch, if_neg hne]
  simp only [Bool.false_eq_true, if_false]
  exact key_mem_executeBatchInsert store ds m hm

lemma save_fst_of_all_mem (e : Bool) (store ds : List Dataset)
    (h : ∀ m ∈ ds, m.source_url ∈ storeKeys store) :
    (save_datasets_batch e store ds).1 = store := by
  rw [save_datasets_batch]
  by_cases hds : ds.isEmpty = true
  · rw [if_pos hds]
  · rw [if_neg hds]
    cases e with
    | true => simp
    | false =>
        simp only [Bool.false_eq_true, if_false]
        exact executeBatchInsert_of_all_mem store ds h

lemma storeKeys_processCompletedChunk (st : OrchState) (ds : List Dataset)
    (e : Bool) (k : String) (h : k ∈ storeKeys st.store) :
    k ∈ storeKeys (processCompletedChunk st ds e).store := by
  rw [processCompletedChunk]
  by_cases hds : ds.isEmpty = true
  · rw [if_pos hds]; exact h
  · rw [if_neg hds]
    exact storeKeys_save e st.store ds k h

lemma uniqueKeys_processCompletedChunk (st : OrchState) (ds : List Dataset)
    (e : Bool) (h : uniqueKeys st.store) :
    uniqueKeys (processCompletedChunk st ds e).store := by
  rw [processCompletedChunk]
  by_cases hds : ds.isEmpty = true
  · rw [if_pos hds]; exact h
  · rw [if_neg hds]
    exact uniqueKeys_save e st.store ds h

lemma key_mem_processCompletedChunk (st : OrchState) (ds : List Dataset)
    (m : Dataset) (hm : m ∈ ds) :
    m.source_url ∈ storeKeys (processCompletedChunk st ds false).store := by
  have hne : ¬ds.isEmpty = true := by
    cases ds with
    | nil => cases hm
    | cons a l => simp
  rw [processCompletedChunk, if_neg hne]
  exact key_mem_save st.store ds m hm

lemma processCompletedChunk_store_of_all_mem (st : OrchState) (ds : List Dataset)
    (e : Bool) (h : ∀ m ∈ ds, m.source_url ∈ storeKeys st.store) :
    (processCompletedChunk st ds e).store = st.store := by
  rw [processCompletedChunk]
  by_cases hds : ds.isEmpty = true
  · rw [if_pos hds]
  · rw [if_neg hds]
    exact save_fst_of_all_mem e st.store ds h

lemma storeKeys_foldJobs (urls : List String) (jobs : List (HttpResult × Bool))
    (st : OrchState) (k : String) (h : k ∈ storeKeys st.store) :
    k ∈ storeKeys (jobs.foldl (orchStep urls) st).store := by
  induction jobs generalizing st with
  | nil => exact h
  | cons j rest ih =>
      exact ih _ (storeKeys_processCompletedChunk st _ j.2 k h)

lemma uniqueKeys_foldJobs (urls : List String) (jobs : List (HttpResult × Bool))
    (st : OrchState) (h : uniqueKeys st.store) :
    uniqueKeys (jobs.foldl (orchStep urls) st).store := by
  induction jobs generalizing st with
  | nil => exact h
  | cons j rest ih =>
      exact ih _ (uniqueKeys_processCompletedChunk st _ j.2 h)

lemma key_mem_foldJobs (urls : List String) (jobs : List (HttpResult × Bool))
    (st : OrchState) (j : HttpResult × Bool) (hj : j ∈ jobs) (hf : j.2 = false)
    (m : Dataset) (hm : m ∈ download_europa_chunk urls j.1) :
    m.source_url ∈ storeKeys (jobs.foldl (orchStep urls) st).store := by
  induction jobs generalizing st with
  | nil => cases hj
  | cons j' rest ih =>
      rcases List.mem_cons.mp hj with rfl | hrest
      · have hfirst : m.source_url ∈ storeKeys (orchStep urls st j).store := by
          rw [orchStep, hf]
          exact key_mem_processCompletedChunk st _ m hm
        exact storeKeys_foldJobs urls rest _ _ hfirst
      · exact ih _ hrest

lemma foldJobs_store_of_all_known (urls : List String)
    (jobs : List (HttpResult × Bool)) (st : OrchState)
    (h : ∀ j ∈ jobs, ∀ m ∈ download_europa_chunk urls j.1,
      m.source_url ∈ storeKeys st.store) :
    (jobs.foldl (orchStep urls) st).store = st.store := by
  induction jobs generalizing st with
  | nil => rfl
  | cons j rest ih =>
      have hstep : (orchStep urls st j).store = st.store :=
        processCompletedChunk_store_of_all_mem st _ j.2
          (h j (List.mem_cons_self j rest))
      rw [List.foldl_cons, ih (orchStep urls st j)
        (fun j' hj' m hm => hstep ▸ h j' (List.mem_cons_of_mem j hj') m hm)]
      exact hstep

/-! ### Auxiliary facts about the fetcher and the URL set -/

lemma download_jsonList (urls : List String) (data : List String) :
    download_europa_chunk urls (.resp 200 (.jsonList data)) =
      processChunkData urls data := by
  show (if (200 : Nat) ≠ 200 then []
    else if data.isEmpty then [] else processChunkData urls data) =
      processChunkData urls data
  rw [if_neg (by simp)]
  by_cases hd : data.isEmpty = true
  · rw [if_pos hd]
    rw [List.isEmpty_iff.mp hd]
    rfl
  · rw [if_neg hd]

lemma mem_setAdd (s : List String) (u v : String) :
    v ∈ setAdd s u ↔ v ∈ s ∨ v = u := by
  rw [setAdd]
  by_cases h : u ∈ s
  · rw [if_pos h]
    constructor
    · exact Or.inl
    · rintro (hv | rfl)
      · exact hv
      · exact h
  · rw [if_neg h]
    simp

lemma mem_setAddAll (s us : List String) (v : String) :
    v ∈ setAddAll s us ↔ v ∈ s ∨ v ∈ us := by
  induction us generalizing s with
  | nil => simp [setAddAll]
  | cons u rest ih =>
      rw [setAddAll, List.foldl_cons]
      rw [show List.foldl setAdd (setAdd s u) rest = setAddAll (setAdd s u) rest from rfl]
      rw [ih, mem_setAdd, List.mem_cons]
      tauto

lemma get_existing_subset (store : List Dataset) (k : String)
    (h : k ∈ get_existing_europa_urls false store) : k ∈ storeKeys store := by
  rw [get_existing_europa_urls] at h
  simp only [Bool.false_eq_true, if_false] at h
  obtain ⟨d, hd, rfl⟩ := List.mem_map.mp h
  exact List.mem_map.mpr ⟨d, (List.mem_filter.mp hd).1, rfl⟩

lemma countKey_pos (store : List Dataset) (k : String) (h : k ∈ storeKeys store) :
    0 < countKey store k := by
  obtain ⟨d, hd, rfl⟩ := List.mem_map.mp h
  rw [countKey]
  have hmem : d ∈ List.filter (fun r => r.source_url == d.source_url) store :=
    List.mem_filter.mpr ⟨hd, by simp⟩
  exact List.length_pos.mpr (fun hnil => by rw [hnil] at hmem; cases hmem)

/-! ### Claim theorems -/

/-- C1, counterexample: with a store already holding the sample record, the
Batch Writer is given that same record again; the store is unchanged (zero
rows actually inserted) yet the function returns 1 — the claim that the
return value is the count of rows actually inserted, skipped records not
counting, is false. -/
theorem save_batch_count_claim_false :
    (save_datasets_batch false [sampleDataset] [sampleDataset]).1 = [sampleDataset] ∧
    (save_datasets_batch false [sampleDataset] [sampleDataset]).2 = 1 := by
  decide

/-- C1, amended: `save_datasets_batch` returns the number of records in the
submitted batch — a record skipped by the conflict clause still counts
toward the returned total — and the empty batch is a no-op returning 0. -/
theorem save_batch_returns_submitted_count (store datasets : List Dataset) :
    (save_datasets_batch false store datasets).2 = datasets.length ∧
    save_datasets_batch false store [] = (store, 0) := by
  refine ⟨?_, rfl⟩
  rw [save_datasets_batch]
  by_cases h : datasets.isEmpty = true
  · rw [if_pos h, List.isEmpty_iff.mp h]
    rfl
  · rw [if_neg h]
    rfl

/-- C10: `save_datasets_batch` is total and atomic on error — any internal
failure (the `dbError` flag covering connection loss and SQL errors) leaves
the store untouched and returns 0, exactly the result of an empty batch. -/
theorem save_batch_total_atomic (e : Bool) (store datasets : List Dataset) :
    save_datasets_batch true store datasets = (store, 0) ∧
    save_datasets_batch e store [] = (store, 0) := by
  refine ⟨?_, rfl⟩
  rw [save_datasets_batch]
  by_cases h : datasets.isEmpty = true
  · rw [if_pos h]
  · rw [if_neg h]
    rfl

/-- C3, counterexample: the raw entry `"abc"` is accepted by the normalizer,
yet when its `source_url` is already in the known-keys set handed to the
chunk, the fetcher's returned sequence is empty — the fetcher does filter
for duplicates itself. -/
theorem fetcher_filters_duplicates :
    extract_europa_metadata_from_string "abc" = some sampleDataset ∧
    download_europa_chunk ["https://data.europa.eu/data/datasets/abc"]
      (.resp 200 (.jsonList ["abc"])) = [] := by
  decide

/-- C3, amended: a normalizer-accepted entry appears in the fetcher's output
if and only if its `source_url` is NOT in the known-keys snapshot the chunk
was dispatched with: the fetcher performs duplicate filtering against that
(possibly stale) snapshot. -/
theorem fetcher_output_iff_not_known (urls : List String) (data : List String)
    (m : Dataset) :
    m ∈ download_europa_chunk urls (.resp 200 (.jsonList data)) ↔
      (∃ s ∈ data, extract_europa_metadata_from_string s = some m) ∧
        m.source_url ∉ urls := by
  rw [download_jsonList, mem_processChunkData]

/-- C7: the Chunk Fetcher maps every failure to an empty record sequence —
a raised request (timeout), a non-200 HTTP status, and a non-list response
body each yield `[]` rather than an error. -/
theorem fetcher_failures_yield_empty (urls : List String) (status : Nat)
    (body : ApiBody) (h : status ≠ 200) :
    download_europa_chunk urls .exn = [] ∧
    download_europa_chunk urls (.resp status body) = [] ∧
    download_europa_chunk urls (.resp 200 .jsonOther) = [] := by
  refine ⟨rfl, ?_, rfl⟩
  show (if status ≠ 200 then []
    else match body with
      | .jsonOther => []
      | .jsonList data => if data.isEmpty then [] else processChunkData urls data) = []
  rw [if_pos h]

theorem fetcher_failures_yield_empty_witness :
    download_europa_chunk [] .exn = [] ∧
    download_europa_chunk [] (.resp 404 (.jsonList ["abc"])) = [] ∧
    download_europa_chunk [] (.resp 200 .jsonOther) = [] :=
  fetcher_failures_yield_empty [] 404 (.jsonList ["abc"]) (by decide)

/-- C8: an entry whose stripped identifier is empty or shorter than 3
characters is rejected by the normalizer (result `none`, no exception in the
model's totality), and every record in the chunk-processing output derives
from an entry whose stripped identifier passed that check. -/
theorem normalizer_rejects_short_ids (s : String)
    (h : pyStrip s = "" ∨ (pyStrip s).length < 3) :
    extract_europa_metadata_from_string s = none ∧
    ∀ urls data m, m ∈ processChunkData urls data →
      ∃ t, t ∈ data ∧ extract_europa_metadata_from_string t = some m ∧
        ¬(pyStrip t = "" ∨ (pyStrip t).length < 3) := by
  constructor
  · rw [extract_europa_metadata_from_string]
    simp [h]
  · intro urls data m hm
    obtain ⟨⟨t, ht, hx⟩, -⟩ := (mem_processChunkData urls data m).mp hm
    refine ⟨t, ht, hx, ?_⟩
    intro hbad
    rw [extract_europa_metadata_from_string] at hx
    simp [hbad] at hx

theorem normalizer_rejects_short_ids_witness :
    extract_europa_metadata_from_string "ab" = none ∧
    ∀ urls data m, m ∈ processChunkData urls data →
      ∃ t, t ∈ data ∧ extract_europa_metadata_from_string t = some m ∧
        ¬(pyStrip t = "" ∨ (pyStrip t).length < 3) :=
  normalizer_rejects_short_ids "ab" (Or.inr (by decide))

/-- C9, counterexample: with the count connection healthy but the key-set
load failing, initialization still returns a running configuration (count 1,
empty key set) instead of failing the job — a key-set load failure is
downgraded, not fatal. -/
theorem init_keyset_failure_not_fatal :
    main_init false true [sampleDataset] = some (1, []) := by
  decide

/-- C9, amended: the job fails fatally exactly when the unguarded store
connection for the initial count fails; a failure to load the initial key
set is caught inside `get_existing_europa_urls` and the job proceeds with an
empty key set. -/
theorem main_init_fatal_iff (c l : Bool) (store : List Dataset) :
    (main_init c l store = none ↔ c = true) ∧
    main_init false true store = some (countPlatform store, []) := by
  constructor
  · constructor
    · intro h
      cases c with
      | true => rfl
      | false =>
          rw [main_init] at h
          simp at h
    · intro h
      subst h
      rfl
  · rfl

/-- C4, counterexample: two chunks of the same job each fetch the same raw
identifier.  Both are dispatched with the initial (empty) snapshot, so BOTH
copies pass the duplicate filtering and reach the Batch Writer — the claim
that at most one of the two copies passes the filter is false.  (Only the
store's conflict clause keeps the row unique.) -/
theorem dedup_both_copies_pass_filter :
    filteredBatches []
        [(.resp 200 (.jsonList ["abc"]), false), (.resp 200 (.jsonList ["abc"]), false)]
      = [[sampleDataset], [sampleDataset]] ∧
    (runJob [] []
        [(.resp 200 (.jsonList ["abc"]), false),
          (.resp 200 (.jsonList ["abc"]), false)]).store = [sampleDataset] ∧
    (runJob [] []
        [(.resp 200 (.jsonList ["abc"]), false),
          (.resp 200 (.jsonList ["abc"]), false)]).total_saved = 2 := by
  decide

/-- C4, amended: a candidate is kept only if its `source_url` is absent from
the snapshot its chunk was dispatched with, and the kept candidate's URL is
added to the orchestrator's set (and its row persisted) only when the
chunk's result is merged — after the batch write, not at filter time — so
two chunks of the same job can both pass the filter for one URL. -/
theorem dedup_filter_snapshot (urls : List String) (r : HttpResult) (m : Dataset)
    (h : m ∈ download_europa_chunk urls r) :
    m.source_url ∉ urls ∧
    ∀ st : OrchState, ∀ ds : List Dataset, m ∈ ds →
      m.source_url ∈ (processCompletedChunk st ds false).existing_urls ∧
      m.source_url ∈ storeKeys (processCompletedChunk st ds false).store := by
  obtain ⟨data, rfl, hmp⟩ := (mem_download urls r m).mp h
  refine ⟨((mem_processChunkData urls data m).mp hmp).2, ?_⟩
  intro st ds hm
  have hne : ¬ds.isEmpty = true := by
    cases ds with
    | nil => cases hm
    | cons a l => simp
  constructor
  · rw [processCompletedChunk, if_neg hne]
    show m.source_url ∈ setAddAll st.existing_urls (ds.map (fun d => d.source_url))
    rw [mem_setAddAll]
    exact Or.inr (List.mem_map.mpr ⟨m, hm, rfl⟩)
  · exact key_mem_processCompletedChunk st ds m hm

theorem dedup_filter_snapshot_witness :
    sampleDataset.source_url ∉ ([] : List String) ∧
    ∀ st : OrchState, ∀ ds : List Dataset, sampleDataset ∈ ds →
      sampleDataset.source_url ∈ (processCompletedChunk st ds false).existing_urls ∧
      sampleDataset.source_url ∈ storeKeys (processCompletedChunk st ds false).store :=
  dedup_filter_snapshot [] (.resp 200 (.jsonList ["abc"])) sampleDataset (by decide)

/-- C5: starting from a store with unique keys, after any job — any chunk
results, any completion order, any per-chunk write failures — the store
still has unique keys; and a record that reached the Batch Writer through a
chunk whose write succeeded has exactly one row for its key in the final
store, even when several chunks carried the same key. -/
theorem store_unique_keys (urls : List String) (store : List Dataset)
    (jobs : List (HttpResult × Bool)) (h : uniqueKeys store) :
    uniqueKeys (runJob urls store jobs).store ∧
    ∀ j ∈ jobs, j.2 = false → ∀ m ∈ download_europa_chunk urls j.1,
      countKey (runJob urls store jobs).store m.source_url = 1 := by
  rw [runJob_eq_foldl]
  have huniq : uniqueKeys
      (jobs.foldl (orchStep urls)
        { store := store, existing_urls := urls, total_saved := 0 }).store :=
    uniqueKeys_foldJobs urls jobs _ h
  refine ⟨huniq, ?_⟩
  intro j hj hf m hm
  have hmem := key_mem_foldJobs urls jobs
    { store := store, existing_urls := urls, total_saved := 0 } j hj hf m hm
  have hle := countKey_le_one _ m.source_url huniq
  have hpos := countKey_pos _ m.source_url hmem
  omega

theorem store_unique_keys_witness :
    uniqueKeys (runJob [] [] [(.resp 200 (.jsonList ["abc"]), false)]).store ∧
    ∀ j ∈ [((.resp 200 (.jsonList ["abc"]) : HttpResult), false)], j.2 = false →
      ∀ m ∈ download_europa_chunk [] j.1,
        countKey (runJob [] [] [(.resp 200 (.jsonList ["abc"]), false)]).store
          m.source_url = 1 :=
  store_unique_keys [] [] [(.resp 200 (.jsonList ["abc"]), false)] List.Pairwise.nil

/-- C2, counterexample: with the source's page size 5000 and a requested
volume of 100, `num_chunks = 100 // 5000 = 0`, so no chunk is produced and
offset 0 of the requested range `[0, 100)` is not covered — the union of the
chunk ranges is not `[resumeOffset, resumeOffset + totalVolume)`. -/
theorem chunks_no_tail_coverage :
    ¬ coveredBy (makeChunks 0 100 5000) 0 ∧ (0 : Nat) < 0 + 100 := by
  constructor
  · rintro ⟨c, hc, -⟩
    rw [makeChunks] at hc
    simp at hc
  · decide

/-- C2, amended: the chunk ranges are pairwise disjoint, and their union is
exactly `[R, R + (V / P) * P)` — the requested range truncated to a whole
number of pages; it equals `[R, R + V)` only when the page size divides the
volume, the remainder `V mod P` being dropped. -/
theorem chunks_partition (R V P : Nat) (hP : 0 < P) :
    (∀ x, coveredBy (makeChunks R V P) x ↔ R ≤ x ∧ x < R + V / P * P) ∧
    (makeChunks R V P).Pairwise chunkDisjoint := by
  constructor
  · intro x
    constructor
    · rintro ⟨c, hc, hx1, hx2⟩
      rw [makeChunks] at hc
      obtain ⟨i, hi, rfl⟩ := List.mem_map.mp hc
      rw [List.mem_range] at hi
      have h2 : (i + 1) * P ≤ V / P * P := Nat.mul_le_mul_right P hi
      have h3 : (i + 1) * P = i * P + P := by ring
      simp only [inChunk] at hx1 hx2
      constructor
      · omega
      · omega
    · rintro ⟨h1, h2⟩
      have hq : (x - R) / P < V / P :=
        (Nat.div_lt_iff_lt_mul hP).mpr (by omega)
      refine ⟨(R + (x - R) / P * P, P), ?_, ?_, ?_⟩
      · rw [makeChunks]
        exact List.mem_map.mpr ⟨(x - R) / P, List.mem_range.mpr hq, rfl⟩
      · have hle := Nat.div_mul_le_self (x - R) P
        show R + (x - R) / P * P ≤ x
        omega
      · have hdm := Nat.div_add_mod (x - R) P
        have hmod := Nat.mod_lt (x - R) hP
        have hcomm : P * ((x - R) / P) = (x - R) / P * P := Nat.mul_comm _ _
        rw [hcomm] at hdm
        show x < R + (x - R) / P * P + P
        omega
  · rw [makeChunks]
    rw [List.pairwise_map]
    refine (List.pairwise_lt_range _).imp ?_
    intro i j hij
    intro x hx
    obtain ⟨⟨ha1, ha2⟩, hb1, hb2⟩ := hx
    simp only at ha1 ha2 hb1 hb2
    have hmul : (i + 1) * P ≤ j * P := Nat.mul_le_mul_right P (by omega)
    have hsplit : (i + 1) * P = i * P + P := by ring
    omega

theorem chunks_partition_witness :
    (∀ x, coveredBy (makeChunks 100 10 5) x ↔ 100 ≤ x ∧ x < 100 + 10 / 5 * 5) ∧
    (makeChunks 100 10 5).Pairwise chunkDisjoint :=
  chunks_partition 100 10 5 (by decide)

lemma second_run_store_eq (urls1 : List String) (store0 : List Dataset)
    (responses : List HttpResult)
    (hsub : ∀ k, k ∈ urls1 → k ∈ storeKeys store0) :
    (runJob (get_existing_europa_urls false
        (runJob urls1 store0 (responses.map (fun r => (r, false)))).store)
      (runJob urls1 store0 (responses.map (fun r => (r, false)))).store
      (responses.map (fun r => (r, false)))).store
      = (runJob urls1 store0 (responses.map (fun r => (r, false)))).store := by
  have hkeys1 : ∀ m : Dataset, ∀ r ∈ responses,
      m ∈ download_europa_chunk urls1 r →
        m.source_url ∈ storeKeys (runJob urls1 store0
          (responses.map (fun r => (r, false)))).store := by
    intro m r hr hm
    rw [runJob_eq_foldl]
    exact key_mem_foldJobs urls1 _ _ (r, false)
      (List.mem_map.mpr ⟨r, hr, rfl⟩) rfl m hm
  have hmono : ∀ k, k ∈ storeKeys store0 →
      k ∈ storeKeys (runJob urls1 store0
        (responses.map (fun r => (r, false)))).store := by
    intro k hk
    rw [runJob_eq_foldl]
    exact storeKeys_foldJobs urls1 _ _ k hk
  conv_lhs => rw [runJob_eq_foldl]
  apply foldJobs_store_of_all_known
  intro j hj m hm
  obtain ⟨r, hr, rfl⟩ := List.mem_map.mp hj
  obtain ⟨data, rfl, hmp⟩ := (mem_download _ _ m).mp hm
  obtain ⟨⟨s, hs, hx⟩, -⟩ := (mem_processChunkData _ data m).mp hmp
  show m.source_url ∈ storeKeys (runJob urls1 store0
    (responses.map (fun r => (r, false)))).store
  by_cases hin : m.source_url ∈ urls1
  · exact hmono _ (hsub _ hin)
  · have hm1 : m ∈ processChunkData urls1 data :=
      (mem_processChunkData urls1 data m).mpr ⟨⟨s, hs, hx⟩, hin⟩
    have hdl : m ∈ download_europa_chunk urls1 (.resp 200 (.jsonList data)) := by
      rw [download_jsonList]
      exact hm1
    exact hkeys1 m _ hr hdl

/-- C6: running the full ingestion a second time over the same responses,
with a fresh Deduplication Filter loaded from the store that already holds
the first run's output, leaves the store exactly as the first run left it —
zero new rows are inserted on the second run. -/
theorem second_run_inserts_zero_rows (store0 : List Dataset)
    (responses : List HttpResult) :
    (runJob
        (get_existing_europa_urls false
          (runJob (get_existing_europa_urls false store0) store0
            (responses.map (fun r => (r, false)))).store)
        (runJob (get_existing_europa_urls false store0) store0
          (responses.map (fun r => (r, false)))).store
        (responses.map (fun r => (r, false)))).store
      = (runJob (get_existing_europa_urls false store0) store0
          (responses.map (fun r => (r, false)))).store :=
  second_run_store_eq _ store0 responses (get_existing_subset store0)
